import Mathlib

/-!
# Verification of the OpenBB documentation section server

A shallow embedding of the text-processing core of `src/server.py`:
the TOC parser (`_parse_toc`), the section extractor
(`_extract_sections_from_docs`, `_find_section_content`) and the two
operation bodies (`_identify_sections_async`, `_fetch_content_async`).

Python strings are modelled as `List Char`; the Python string methods
used by the source (`strip`, `lower`, `startswith`, `split('\n')`,
slicing, `replace('#','')`, substring `in`) are given explicit
executable models below.  Python `dict`s keyed by strings are modelled
as association lists with in-place update (`dictInsert`), which
reproduces dict insertion-order and overwrite semantics.  Python
exceptions are modelled with `Except`.
-/

/-! ## Python string primitives -/

/-- The characters `str.strip()` removes (ASCII whitespace as in Python). -/
def isPySpace (c : Char) : Bool :=
  c = ' ' || c = '\t' || c = '\n' || c = '\r' || c = '\x0b' || c = '\x0c'

/-- Python `s.strip()`. -/
def pyStrip (s : List Char) : List Char :=
  ((s.dropWhile isPySpace).reverse.dropWhile isPySpace).reverse

/-- Python `s.lower()` (ASCII range, which covers every string the code compares). -/
def pyLower (s : List Char) : List Char :=
  s.map Char.toLower

/-- Python `s.startswith(p)`. -/
def pyStartsWith : List Char → List Char → Bool
  | _, [] => true
  | [], _ :: _ => false
  | c :: s, p :: ps => p = c && pyStartsWith s ps

/-- Python `s.split('\n')` (keeps empty pieces; `"" ↦ [""]`). -/
def pySplitLines : List Char → List (List Char)
  | [] => [[]]
  | c :: cs =>
    if c = '\n' then [] :: pySplitLines cs
    else
      match pySplitLines cs with
      | [] => [[c]]
      | l :: ls => (c :: l) :: ls

/-- Python `'\n'.join(lines)`. -/
def joinNL : List (List Char) → List Char
  | [] => []
  | [l] => l
  | l :: ls => l ++ '\n' :: joinNL ls

/-- Python substring test `needle in hay` (contiguous; `"" in s` is true). -/
def pyContains (hay needle : List Char) : Bool :=
  if pyStartsWith hay needle then true
  else
    match hay with
    | [] => false
    | _ :: t => pyContains t needle

/-! ## TOC parser (`_parse_toc`) -/

/-- One parsed TOC entry (`sections.append({...})` in `_parse_toc`). -/
structure SectionInfo where
  title : List Char
  category : List Char
  url : List Char
  description : List Char
deriving DecidableEq

/-- `line.startswith(('-', '*', '1.', '2.', '3.', '4.', '5.'))`. -/
def isListMarker (line : List Char) : Bool :=
  pyStartsWith line "-".toList || pyStartsWith line "*".toList ||
  pyStartsWith line "1.".toList || pyStartsWith line "2.".toList ||
  pyStartsWith line "3.".toList || pyStartsWith line "4.".toList ||
  pyStartsWith line "5.".toList

/-- Attempt to match the regex `\[([^\]]+)\]\(([^)]+)\)` anchored at the
start of `l`, returning the two groups.  Both character classes are
greedy, and with this pattern greediness is forced (no backtracking is
possible), so the match is the maximal run of non-`]` / non-`)`
characters followed by the literal delimiter. -/
def tryLinkAt (l : List Char) : Option (List Char × List Char) :=
  match l with
  | [] => none
  | c :: cs =>
    if c = '[' then
      let t := cs.takeWhile (fun x => x ≠ ']')
      if t = [] then none
      else
        match cs.dropWhile (fun x => x ≠ ']') with
        | x :: y :: cs2 =>
          if x = ']' ∧ y = '(' then
            let u := cs2.takeWhile (fun z => z ≠ ')')
            if u = [] then none
            else
              match cs2.dropWhile (fun z => z ≠ ')') with
              | z :: _ => if z = ')' then some (t, u) else none
              | [] => none
          else none
        | _ => none
    else none

/-- `re.search(r'\[([^\]]+)\]\(([^)]+)\)', line)`: leftmost match of the
markdown-link pattern (try every start position from the left). -/
def extractLink : List Char → Option (List Char × List Char)
  | [] => none
  | c :: cs =>
    match tryLinkAt (c :: cs) with
    | some r => some r
    | none => extractLink cs

/-- The `if query and query.lower() not in title.lower() and query.lower()
not in current_category.lower(): continue` filter of `_parse_toc`
(an empty query string is falsy in Python, so it never filters). -/
def skipByQuery (query : Option (List Char)) (title cat : List Char) : Bool :=
  match query with
  | none => false
  | some q =>
    !q.isEmpty && !pyContains (pyLower title) (pyLower q) &&
      !pyContains (pyLower cat) (pyLower q)

/-- The body of `_parse_toc`'s loop for one non-empty stripped line:
returns the updated `current_category` together with the section
appended for this line, if any. -/
def parseTocLine (query : Option (List Char)) (cat line : List Char) :
    List Char × Option SectionInfo :=
  if ¬ isListMarker line then
    (if line ≠ [] ∧ ¬ pyStartsWith line "#".toList ∧ ¬ pyStartsWith line "http".toList
      then pyStrip (line.filter (fun c => c ≠ '#'))
      else cat, none)
  else
    match extractLink line with
    | none => (cat, none)
    | some (t, u) =>
      if skipByQuery query (pyStrip t) cat then (cat, none)
      else
        (cat, some
          { title := pyStrip t
            category := cat
            url := pyStrip u
            description :=
              if cat ≠ [] then cat ++ ": ".toList ++ pyStrip t else pyStrip t })

/-- The line loop of `_parse_toc`, threading `current_category`. -/
def parseTocLines (query : Option (List Char)) :
    List (List Char) → List Char → List SectionInfo
  | [], _ => []
  | rawLine :: rest, cat =>
    if pyStrip rawLine = [] then parseTocLines query rest cat
    else
      match parseTocLine query cat (pyStrip rawLine) with
      | (cat2, none) => parseTocLines query rest cat2
      | (cat2, some s) => s :: parseTocLines query rest cat2

/-- `_parse_toc(toc_content, query)`: strip the whole text, split into
lines, scan with `current_category` initialised to the empty string. -/
def parseToc (toc : List Char) (query : Option (List Char)) : List SectionInfo :=
  parseTocLines query (pySplitLines (pyStrip toc)) []

/-! ## Section extractor (`_find_section_content`, `_extract_sections_from_docs`) -/

/-- The front-matter skip loop of `_find_section_content`:
`while j < len(lines) and lines[j].strip() != '---': j += 1` followed by
`j += 1` — drop lines up to and including the first one stripping to
`---` (or everything, when there is none). -/
def skipFM : List (List Char) → List (List Char)
  | [] => []
  | l :: rest => if pyStrip l = "---".toList then rest else skipFM rest

/-- The body-collection loop of `_find_section_content`: keep raw lines
until one strips to `---` and the NEXT line strips to `---` or is blank
(the lookahead needs a next line to exist, so a final `---` with nothing
after it is collected, not treated as a boundary). -/
def collectContent : List (List Char) → List (List Char)
  | [] => []
  | [l] => [l]
  | l :: l2 :: rest =>
    if pyStrip l = "---".toList ∧ (pyStrip l2 = "---".toList ∨ pyStrip l2 = []) then []
    else l :: collectContent (l2 :: rest)

/-- The outer scan of `_find_section_content` over the line list: find a
line whose stripped, lowered form starts with `title:`; if the rest of
that (stripped) line, re-stripped, matches the requested title
case-insensitively, skip the remaining front matter and collect the body
joined with newlines; otherwise keep scanning. -/
def findSectionContentL (t : List Char) : List (List Char) → Option (List Char)
  | [] => none
  | rawLine :: rest =>
    if pyStartsWith (pyLower (pyStrip rawLine)) "title:".toList then
      if pyLower (pyStrip ((pyStrip rawLine).drop 6)) = pyLower t then
        some (joinNL (collectContent (skipFM rest)))
      else findSectionContentL t rest
    else findSectionContentL t rest

/-- `_find_section_content(full_docs, title)`. -/
def findSectionContent (full_docs t : List Char) : Option (List Char) :=
  findSectionContentL t (pySplitLines full_docs)

/-- The `f"Section '{title}' not found in documentation."` placeholder. -/
def notFoundMsg (t : List Char) : List Char :=
  "Section '".toList ++ t ++ "' not found in documentation.".toList

/-- The `f"Error extracting section '{title}': {str(e)}"` placeholder. -/
def errorMsg (t e : List Char) : List Char :=
  "Error extracting section '".toList ++ t ++ "': ".toList ++ e

/-! ## Python dicts as association lists -/

/-- Is `k` a key of the dict? -/
def keyMem (d : List (List Char × α)) (k : List Char) : Bool :=
  d.any (fun p => p.1 = k)

/-- `d[k] = v` on a Python dict: overwrite in place if the key exists,
otherwise append (insertion order is preserved). -/
def dictInsert (d : List (List Char × α)) (k : List Char) (v : α) :
    List (List Char × α) :=
  if keyMem d k then d.map (fun p => if p.1 = k then (k, v) else p)
  else d ++ [(k, v)]

/-- Dict lookup (`d.get(k)` / `d[k]`): first entry with the key. -/
def dictGet? : List (List Char × α) → List Char → Option α
  | [], _ => none
  | p :: d, k => if p.1 = k then some p.2 else dictGet? d k

/-- `d.get(k, dflt)`. -/
def dictGetD (d : List (List Char × α)) (k : List Char) (dflt : α) : α :=
  (dictGet? d k).getD dflt

/-! ## `_extract_sections_from_docs`

The per-title `try/except` of `_extract_sections_from_docs` is embedded
by parameterising over the finder as an `Except`-valued function: a
Python exception raised while extracting one title is the `.error` case.
The finder actually used by the server, `_find_section_content`, is
total in this embedding, so it is instantiated as the `.ok` finder
`realFind` below. -/

/-- The value stored for one requested title: the section content if it
is found and non-empty (`if section_content:`), the not-found
placeholder if it is `None` or empty, and the error placeholder if the
finder raised. -/
def extractValue (find : List Char → Except (List Char) (Option (List Char)))
    (t : List Char) : List Char :=
  match find t with
  | .ok (some c) => if c = [] then notFoundMsg t else c
  | .ok none => notFoundMsg t
  | .error e => errorMsg t e

/-- The `for title in section_titles` loop, threading the result dict. -/
def extractGo (find : List Char → Except (List Char) (Option (List Char))) :
    List (List Char × List Char) → List (List Char) → List (List Char × List Char)
  | acc, [] => acc
  | acc, t :: ts => extractGo find (dictInsert acc t (extractValue find t)) ts

/-- `_extract_sections_from_docs` generalised over the finder. -/
def extractSectionsWith (find : List Char → Except (List Char) (Option (List Char)))
    (section_titles : List (List Char)) : List (List Char × List Char) :=
  extractGo find [] section_titles

/-- The finder the server uses: `_find_section_content` never raises. -/
def realFind (full_docs : List Char) :
    List Char → Except (List Char) (Option (List Char)) :=
  fun t => .ok (findSectionContent full_docs t)

/-- `_extract_sections_from_docs(full_docs, section_titles)`. -/
def extractSectionsFromDocs (full_docs : List Char)
    (section_titles : List (List Char)) : List (List Char × List Char) :=
  extractSectionsWith (realFind full_docs) section_titles

/-! ## Operation layer (`_identify_sections_async`, `_fetch_content_async`)

The only statements inside the `try` blocks that can raise are the HTTP
fetches (`client.get` / `raise_for_status`); everything after them —
`_parse_toc`, the dict comprehension, `_extract_sections_from_docs` —
is total in this embedding just as it is exception-free in the source
(per-title faults are already caught inside the extractor).  A fetch is
therefore modelled as an `Except PyErr`-valued input, and the `except`
clause of each operation is the `.error` branch. -/

/-- A Python exception as the `except Exception as e:` blocks see it:
`str(e)`, `type(e).__name__` and `traceback.format_exc()`. -/
structure PyErr where
  msg : List Char
  ty : List Char
  tb : List Char

/-- The dict returned by `_identify_sections_async`: the `ok` constructor
is the `success: True` payload, `err` is the `success: False` payload
(`error`, `error_type`, `traceback`, echoed `query`, empty
`raw_toc_content`). -/
inductive IdentifyResult where
  | ok (query raw_toc_content : List Char)
      (section_urls : List (List Char × List Char))
  | err (error error_type traceback query raw_toc_content : List Char)

/-- The dict returned by `_fetch_content_async`: per-title entries of
`extracted_content` are `(title, (url, content))` pairs (the inner
Python dict `{"url": ..., "content": ...}`). -/
inductive FetchResult where
  | ok (user_query : List Char)
      (extracted_content : List (List Char × (List Char × List Char)))
      (sections_found : Nat)
  | err (error error_type traceback user_query : List Char)
      (extracted_content : List (List Char × (List Char × List Char)))

/-- The `extracted_content` field of either constructor. -/
def FetchResult.extracted : FetchResult → List (List Char × (List Char × List Char))
  | .ok _ ec _ => ec
  | .err _ _ _ _ ec => ec

/-- The `sections_found` field (absent from the failure dict, read as 0). -/
def FetchResult.found : FetchResult → Nat
  | .ok _ _ n => n
  | .err _ _ _ _ _ => 0

/-- The `{section["title"]: section["url"] for section in parsed_sections}`
comprehension (later duplicates overwrite earlier ones). -/
def sectionUrlMap (sections : List SectionInfo) : List (List Char × List Char) :=
  sections.foldl (fun d s => dictInsert d s.title s.url) []

/-- `_identify_sections_async(user_query)`, with the TOC fetch as input. -/
def identifySectionsAsync (fetchToc : Except PyErr (List Char))
    (user_query : List Char) : IdentifyResult :=
  match fetchToc with
  | .ok toc_content =>
    .ok user_query toc_content (sectionUrlMap (parseToc toc_content none))
  | .error e => .err e.msg e.ty e.tb user_query []

/-- `_fetch_content_async(section_titles, user_query)`, with the two
fetches as inputs (the TOC is fetched first; a TOC failure means the
full-docs fetch is never attempted). -/
def fetchContentAsync (fetchToc fetchDocs : Except PyErr (List Char))
    (section_titles : List (List Char)) (user_query : List Char) : FetchResult :=
  match fetchToc with
  | .error e => .err e.msg e.ty e.tb user_query []
  | .ok toc_content =>
    match fetchDocs with
    | .error e => .err e.msg e.ty e.tb user_query []
    | .ok full_docs =>
      let section_url_map := sectionUrlMap (parseToc toc_content none)
      let content_sections := extractSectionsFromDocs full_docs section_titles
      let sections_with_urls := content_sections.foldl
        (fun d p => dictInsert d p.1 (dictGetD section_url_map p.1 "URL not found".toList, p.2)) []
      .ok user_query sections_with_urls content_sections.length

/-! ## Spec-side rendering of claim C1

`isTitleLine` and `claimedSectionBody` formalise the WORDS of the claim
about `_find_section_content` (unique `title: X` line; body = the lines
strictly between the line after the closing `---` of that front-matter
block and the first `---` line immediately followed by another `---`
line or a blank line), to be compared with the scan `findSectionContent`
above. -/

/-- The requested title occurs on this line as a front-matter
`title: X` line (match exactly as the code tests it). -/
def isTitleLine (l t : List Char) : Bool :=
  pyStartsWith (pyLower (pyStrip l)) "title:".toList &&
    pyLower (pyStrip ((pyStrip l).drop 6)) = pyLower t

/-- A pair of consecutive lines forming a section boundary: a `---` line
immediately followed by another `---` line or a blank line. -/
def isBoundaryPair (a b : List Char) : Bool :=
  pyStrip a = "---".toList && (pyStrip b = "---".toList || pyStrip b = [])

/-- Modelled from the claim's words: the lines between the line after the
closing `---` of the matching front-matter block and the next section
boundary, with neither delimiter included, joined with newlines. -/
def claimedSectionBody (lines : List (List Char)) (t : List Char) : List Char :=
  let i := lines.findIdx (fun l => isTitleLine l t)
  let afterTitle := lines.drop (i + 1)
  let k := afterTitle.findIdx (fun l => pyStrip l = "---".toList)
  let body := afterTitle.drop (k + 1)
  let pairs := body.zip body.tail
  let b := pairs.findIdx (fun p => isBoundaryPair p.1 p.2)
  if b < pairs.length then joinNL (body.take b) else joinNL body

/-! ## Example inputs for the claims -/

def exDocsC1 : List Char :=
  "---\ntitle: Install\nsidebar_position: 1\n---\nline1\nline2\n---\n\n---\ntitle: Next\n---\nbody2".toList

def exTocC3 : List Char :=
  "## Setup\n- [Installation](https://x/install)\n- [Quickstart](https://x/quick)".toList

def exDocsC4 : List Char :=
  "---\ntitle: Real Section\n---\nreal body\n---\n\n---\ntitle: Other\n---\nother body".toList

def exFindC6 : List Char → Except (List Char) (Option (List Char)) :=
  fun t => if t = "bad".toList then .error "boom".toList else .ok (some "body text".toList)

def exDocsC9a : List Char := "---\ntitle: A\n---\n---\n\n---\ntitle: B\n---\nbody".toList

def exDocsC9b : List Char := "---\ntitle: A\n---".toList

def exDocsC9c : List Char := "---\ntitle: A".toList

def exTocC10 : List Char := "- [Abc](https://x/abc)".toList

def exDocsC10 : List Char := "---\ntitle: ABC\n---\nthe body".toList

/-! ## Dictionary lemmas -/

theorem dictGet?_isSome_eq_keyMem {α : Type} (d : List (List Char × α)) (k : List Char) :
    (dictGet? d k).isSome = keyMem d k := by
  induction d with
  | nil => rfl
  | cons p d ih =>
    simp only [dictGet?, keyMem, List.any_cons]
    by_cases h : p.1 = k
    · simp [h]
    · simpa [h, keyMem] using ih

theorem dictGet?_map_update {α : Type} (d : List (List Char × α)) (k : List Char)
    (v : α) (x : List Char) :
    dictGet? (d.map (fun p => if p.1 = k then (k, v) else p)) x =
      if x = k then (dictGet? d k).map (fun _ => v) else dictGet? d x := by
  induction d with
  | nil => by_cases h : x = k <;> simp [h, dictGet?]
  | cons p d ih =>
    simp only [List.map_cons, dictGet?]
    by_cases hpk : p.1 = k
    · by_cases hxk : x = k
      · simp [hpk, hxk, dictGet?]
      · have : ¬ (k = x) := fun h => hxk h.symm
        simp [hpk, hxk, this, dictGet?, ih]
    · by_cases hpx : p.1 = x
      · have hxk : ¬ (x = k) := fun h => hpk (h ▸ hpx)
        simp [hpk, hpx, hxk, dictGet?]
      · simp [hpk, hpx, dictGet?, ih]

theorem dictGet?_append_of_none {α : Type} {d : List (List Char × α)} {x : List Char}
    (h : dictGet? d x = none) (e : List (List Char × α)) :
    dictGet? (d ++ e) x = dictGet? e x := by
  induction d with
  | nil => rfl
  | cons p d ih =>
    simp only [dictGet?] at h ⊢
    by_cases hpx : p.1 = x
    · simp [hpx] at h
    · simp only [hpx, if_neg, List.cons_append, dictGet?] at h ⊢
      simp [hpx] at h ⊢
      exact ih h

theorem dictGet?_append_of_some {α : Type} {d : List (List Char × α)} {x : List Char}
    {w : α} (h : dictGet? d x = some w) (e : List (List Char × α)) :
    dictGet? (d ++ e) x = some w := by
  induction d with
  | nil => simp [dictGet?] at h
  | cons p d ih =>
    simp only [dictGet?] at h ⊢
    by_cases hpx : p.1 = x
    · simpa [hpx] using h
    · simp [hpx] at h ⊢
      exact ih h

/-- Lookup after a Python-dict insert: the inserted key maps to the new
value, every other key is untouched. -/
theorem dictGet?_insert {α : Type} (d : List (List Char × α)) (k : List Char)
    (v : α) (x : List Char) :
    dictGet? (dictInsert d k v) x = if x = k then some v else dictGet? d x := by
  unfold dictInsert
  by_cases hmem : keyMem d k
  · rw [if_pos hmem, dictGet?_map_update]
    by_cases hxk : x = k
    · have hsome : (dictGet? d k).isSome := by rw [dictGet?_isSome_eq_keyMem]; exact hmem
      obtain ⟨w, hw⟩ := Option.isSome_iff_exists.mp hsome
      simp [hxk, hw]
    · simp [hxk]
  · rw [if_neg hmem]
    have hnone : dictGet? d k = none := by
      cases h : dictGet? d k with
      | none => rfl
      | some w =>
        have hk : keyMem d k = true := by rw [← dictGet?_isSome_eq_keyMem, h]; rfl
        exact absurd hk hmem
    by_cases hxk : x = k
    · subst hxk
      rw [dictGet?_append_of_none hnone]
      simp [dictGet?]
    · have hkx : ¬ ((k, v).1 = x) := fun h2 => hxk h2.symm
      cases h : dictGet? d x with
      | none => rw [dictGet?_append_of_none h]; simp [dictGet?, hkx, hxk]
      | some w => rw [dictGet?_append_of_some h]; simp [hxk]

/-- Keys of a dict after an insert. -/
theorem dictInsert_keys {α : Type} (d : List (List Char × α)) (k : List Char) (v : α) :
    (dictInsert d k v).map Prod.fst =
      if keyMem d k then d.map Prod.fst else d.map Prod.fst ++ [k] := by
  unfold dictInsert
  by_cases hmem : keyMem d k
  · rw [if_pos hmem, if_pos hmem, List.map_map]
    apply List.map_congr_left
    intro p _
    by_cases hpk : p.1 = k
    · simp [hpk]
    · simp [hpk]
  · rw [if_neg hmem, if_neg hmem]
    simp

theorem keyMem_false_not_mem {α : Type} {d : List (List Char × α)} {k : List Char}
    (h : keyMem d k = false) : k ∉ d.map Prod.fst := by
  intro hk
  obtain ⟨p, hp, hfst⟩ := List.mem_map.mp hk
  have : d.any (fun p => p.1 = k) = true := List.any_eq_true.mpr ⟨p, hp, by simp [hfst]⟩
  rw [keyMem] at h
  rw [h] at this
  exact Bool.false_ne_true this

/-- Inserting preserves key-uniqueness of the dict. -/
theorem dictInsert_nodup {α : Type} {d : List (List Char × α)} (k : List Char) (v : α)
    (h : (d.map Prod.fst).Nodup) : ((dictInsert d k v).map Prod.fst).Nodup := by
  rw [dictInsert_keys]
  by_cases hmem : keyMem d k
  · rwa [if_pos hmem]
  · rw [if_neg hmem]
    have hk : k ∉ d.map Prod.fst := keyMem_false_not_mem (Bool.eq_false_iff.mpr hmem)
    rw [List.nodup_append]
    refine ⟨h, List.nodup_singleton k, ?_⟩
    intro a ha hb
    rw [List.mem_singleton] at hb
    exact hk (hb ▸ ha)

/-! ## Extractor characterisation -/

/-- Lookup in the extractor's result dict: a requested title maps to its
`extractValue` (the value is a function of the title alone, so duplicate
requests agree); unrequested titles fall through to the accumulator. -/
theorem extractGo_get (find : List Char → Except (List Char) (Option (List Char)))
    (ts : List (List Char)) (acc : List (List Char × List Char)) (x : List Char) :
    dictGet? (extractGo find acc ts) x =
      if x ∈ ts then some (extractValue find x) else dictGet? acc x := by
  induction ts generalizing acc with
  | nil => simp [extractGo]
  | cons t ts ih =>
    rw [extractGo, ih]
    by_cases hxts : x ∈ ts
    · simp [hxts, List.mem_cons]
    · rw [if_neg hxts, dictGet?_insert]
      by_cases hxt : x = t
      · subst hxt
        simp [List.mem_cons]
      · simp [hxt, hxts, List.mem_cons]

/-- Lookup in `_extract_sections_from_docs`' result (generalised finder). -/
theorem extractSectionsWith_get (find : List Char → Except (List Char) (Option (List Char)))
    (ts : List (List Char)) (x : List Char) :
    dictGet? (extractSectionsWith find ts) x =
      if x ∈ ts then some (extractValue find x) else none := by
  rw [extractSectionsWith, extractGo_get]
  rfl

/-- The extractor's result dict has pairwise-distinct keys. -/
theorem extractGo_nodup (find : List Char → Except (List Char) (Option (List Char)))
    (ts : List (List Char)) (acc : List (List Char × List Char))
    (h : (acc.map Prod.fst).Nodup) :
    ((extractGo find acc ts).map Prod.fst).Nodup := by
  induction ts generalizing acc with
  | nil => exact h
  | cons t ts ih => exact ih _ (dictInsert_nodup _ _ h)

theorem extractSectionsFromDocs_nodup (full_docs : List Char) (ts : List (List Char)) :
    ((extractSectionsFromDocs full_docs ts).map Prod.fst).Nodup :=
  extractGo_nodup _ ts [] List.nodup_nil

/-- Folding `dictInsert` over pairs with fresh, pairwise-distinct keys
just appends the transformed pairs (the shape of the
`sections_with_urls` loop in `_fetch_content_async`). -/
theorem foldl_dictInsert_eq_map {β α : Type} (f : List Char → β → α) :
    ∀ (ps : List (List Char × β)) (acc : List (List Char × α)),
      (∀ p ∈ ps, keyMem acc p.1 = false) → (ps.map Prod.fst).Nodup →
      ps.foldl (fun d p => dictInsert d p.1 (f p.1 p.2)) acc =
        acc ++ ps.map (fun p => (p.1, f p.1 p.2))
  | [], acc, _, _ => by simp
  | p :: ps, acc, hfresh, hnodup => by
    have hp : keyMem acc p.1 = false := hfresh p (List.mem_cons_self p ps)
    have hstep : dictInsert acc p.1 (f p.1 p.2) = acc ++ [(p.1, f p.1 p.2)] := by
      rw [dictInsert, if_neg (by rw [hp]; exact Bool.false_ne_true)]
    rw [List.foldl_cons, hstep]
    rw [List.map_cons, List.nodup_cons] at hnodup
    have hfresh2 : ∀ q ∈ ps, keyMem (acc ++ [(p.1, f p.1 p.2)]) q.1 = false := by
      intro q hq
      rw [keyMem, List.any_append]
      have h1 : keyMem acc q.1 = false := hfresh q (List.mem_cons_of_mem p hq)
      have hne : ¬ ((p.1, f p.1 p.2).1 = q.1) := by
        intro hqp
        exact hnodup.1 (hqp ▸ List.mem_map_of_mem Prod.fst hq)
      rw [keyMem] at h1
      simp [h1, hne]
    rw [foldl_dictInsert_eq_map f ps _ hfresh2 hnodup.2, List.append_assoc]
    rfl

/-- Lookup in a dict built by mapping values over key-indexed pairs. -/
theorem dictGet?_map_pairs {β α : Type} (f : List Char → β → α)
    (ps : List (List Char × β)) (x : List Char) :
    dictGet? (ps.map (fun p => (p.1, f p.1 p.2))) x =
      (dictGet? ps x).map (fun v => f x v) := by
  induction ps with
  | nil => rfl
  | cons p ps ih =>
    simp only [List.map_cons, dictGet?]
    by_cases hpx : p.1 = x
    · subst hpx
      simp
    · simp [hpx, ih]

/-- The success path of `_fetch_content_async`, in closed form: the
extracted dict pairs each requested title's content with its looked-up
URL, and `sections_found` is the number of entries of the content dict. -/
theorem fetchContentAsync_ok (toc full_docs : List Char)
    (titles : List (List Char)) (q : List Char) :
    fetchContentAsync (.ok toc) (.ok full_docs) titles q =
      .ok q
        ((extractSectionsFromDocs full_docs titles).map
          (fun p => (p.1,
            (dictGetD (sectionUrlMap (parseToc toc none)) p.1 "URL not found".toList, p.2))))
        (extractSectionsFromDocs full_docs titles).length := by
  rw [fetchContentAsync]
  have h := foldl_dictInsert_eq_map
    (fun k c => (dictGetD (sectionUrlMap (parseToc toc none)) k "URL not found".toList, c))
    (extractSectionsFromDocs full_docs titles) []
    (fun p _ => rfl) (extractSectionsFromDocs_nodup full_docs titles)
  simp only [List.nil_append] at h
  rw [h]

/-! ## `_find_section_content` against the claimed declarative description -/

theorem isBoundaryPair_iff (a b : List Char) :
    isBoundaryPair a b = true ↔
      (pyStrip a = "---".toList ∧ (pyStrip b = "---".toList ∨ pyStrip b = [])) := by
  simp [isBoundaryPair]

/-- The front-matter skip drops everything up to and including the first
line stripping to `---`. -/
theorem skipFM_eq (ls : List (List Char)) :
    skipFM ls = ls.drop (ls.findIdx (fun l => pyStrip l = "---".toList) + 1) := by
  induction ls with
  | nil => rfl
  | cons l rest ih =>
    rw [skipFM, List.findIdx_cons]
    by_cases h : pyStrip l = "---".toList
    · simp [h]
    · rw [if_neg h, ih, decide_eq_false h, cond_false, List.drop_succ_cons]

/-- The body-collection loop takes exactly the lines before the first
boundary pair (a `---` line immediately followed by another `---` line
or a blank line), or the whole rest when no such pair exists. -/
theorem collectContent_eq (ls : List (List Char)) :
    collectContent ls =
      (if (ls.zip ls.tail).findIdx (fun p => isBoundaryPair p.1 p.2) <
          (ls.zip ls.tail).length
        then ls.take ((ls.zip ls.tail).findIdx (fun p => isBoundaryPair p.1 p.2))
        else ls) := by
  induction ls with
  | nil => rfl
  | cons l rest ih =>
    cases rest with
    | nil => rfl
    | cons l2 rest2 =>
      rw [collectContent]
      simp only [List.tail_cons, List.zip_cons_cons, List.findIdx_cons, List.length_cons]
      by_cases hP : pyStrip l = "---".toList ∧ (pyStrip l2 = "---".toList ∨ pyStrip l2 = [])
      · have hb : isBoundaryPair l l2 = true := (isBoundaryPair_iff l l2).mpr hP
        rw [if_pos hP, hb, cond_true]
        rw [if_pos (Nat.succ_pos _)]
        rfl
      · have hb : isBoundaryPair l l2 = false :=
          Bool.eq_false_iff.mpr (fun h => hP ((isBoundaryPair_iff l l2).mp h))
        rw [if_neg hP, hb, cond_false, ih]
        simp only [List.tail_cons]
        by_cases hlt : ((l2 :: rest2).zip rest2).findIdx (fun p => isBoundaryPair p.1 p.2) <
            ((l2 :: rest2).zip rest2).length
        · rw [if_pos hlt, if_pos (by omega)]
          rfl
        · rw [if_neg hlt, if_neg (by omega)]

/-- When some line carries the requested title, the scan of
`_find_section_content` succeeds and processes exactly the lines after
the FIRST such line. -/
theorem findSectionContentL_eq_of_mem (t : List Char) (lines : List (List Char))
    (h : ∃ l ∈ lines, isTitleLine l t = true) :
    findSectionContentL t lines =
      some (joinNL (collectContent (skipFM
        (lines.drop (lines.findIdx (fun l => isTitleLine l t) + 1))))) := by
  induction lines with
  | nil =>
    obtain ⟨l, hl, _⟩ := h
    exact absurd hl (List.not_mem_nil l)
  | cons a rest ih =>
    rw [findSectionContentL, List.findIdx_cons]
    by_cases h1 : pyStartsWith (pyLower (pyStrip a)) "title:".toList = true
    · by_cases h2 : pyLower (pyStrip ((pyStrip a).drop 6)) = pyLower t
      · have hT : isTitleLine a t = true := by
          rw [isTitleLine, Bool.and_eq_true]
          exact ⟨h1, decide_eq_true h2⟩
        rw [if_pos h1, if_pos h2, hT, cond_true, List.drop_succ_cons, List.drop_zero]
      · have hT : isTitleLine a t = false := by
          rw [isTitleLine]
          rw [decide_eq_false h2]
          simp
        have hrest : ∃ l ∈ rest, isTitleLine l t = true := by
          obtain ⟨l, hl, hlt⟩ := h
          rcases List.mem_cons.mp hl with rfl | hmem
          · rw [hT] at hlt; exact absurd hlt (by simp)
          · exact ⟨l, hmem, hlt⟩
        rw [if_pos h1, if_neg h2, hT, cond_false, List.drop_succ_cons, ih hrest]
    · have hT : isTitleLine a t = false := by
        rw [isTitleLine, Bool.eq_false_iff.mpr h1]
        simp
      have hrest : ∃ l ∈ rest, isTitleLine l t = true := by
        obtain ⟨l, hl, hlt⟩ := h
        rcases List.mem_cons.mp hl with rfl | hmem
        · rw [hT] at hlt; exact absurd hlt (by simp)
        · exact ⟨l, hmem, hlt⟩
      rw [if_neg h1, hT, cond_false, List.drop_succ_cons, ih hrest]

/-- C1: for every full-docs text in which the requested title occurs
exactly once as a front-matter `title: X` line, `_find_section_content`
returns exactly the lines between the line after the closing `---` of
that front-matter block and the next section boundary (the first `---`
line immediately followed by another `---` line or a blank line),
joined with newlines, with neither delimiter included. -/
theorem find_section_content_unique_title (full_docs t : List Char)
    (h : (pySplitLines full_docs).countP (fun l => isTitleLine l t) = 1) :
    findSectionContent full_docs t =
      some (claimedSectionBody (pySplitLines full_docs) t) := by
  have hex : ∃ l ∈ pySplitLines full_docs, isTitleLine l t = true :=
    List.countP_pos_iff.mp (by omega)
  rw [findSectionContent, findSectionContentL_eq_of_mem t _ hex]
  simp only [claimedSectionBody]
  rw [skipFM_eq, collectContent_eq]
  split
  · rfl
  · rfl

/-! ## TOC parser invariants -/

/-- Both regex groups of a successful link match are non-empty (the
character classes are `+`-quantified). -/
theorem tryLinkAt_groups {l tt uu : List Char} (h : tryLinkAt l = some (tt, uu)) :
    tt ≠ [] ∧ uu ≠ [] := by
  cases l with
  | nil => exact absurd h (by simp [tryLinkAt])
  | cons c cs =>
    simp only [tryLinkAt] at h
    split at h
    · split at h
      · exact absurd h (by simp)
      · rename_i hT
        split at h
        · rename_i x y cs2 hxy
          split at h
          · split at h
            · exact absurd h (by simp)
            · rename_i hU
              split at h
              · rename_i z zs hz
                split at h
                · simp only [Option.some.injEq, Prod.mk.injEq] at h
                  obtain ⟨h1, h2⟩ := h
                  subst h1
                  subst h2
                  exact ⟨hT, hU⟩
                · exact absurd h (by simp)
              · exact absurd h (by simp)
          · exact absurd h (by simp)
        · exact absurd h (by simp)
    · exact absurd h (by simp)

theorem extractLink_groups {l tt uu : List Char}
    (h : extractLink l = some (tt, uu)) : tt ≠ [] ∧ uu ≠ [] := by
  induction l with
  | nil => exact absurd h (by simp [extractLink])
  | cons c cs ih =>
    rw [extractLink] at h
    cases htry : tryLinkAt (c :: cs) with
    | some r =>
      rw [htry] at h
      simp only [Option.some.injEq] at h
      subst h
      exact tryLinkAt_groups htry
    | none =>
      rw [htry] at h
      exact ih h

/-- Every section emitted for one TOC line comes from a successful link
match on that line, with the record fields exactly as `_parse_toc`
builds them. -/
theorem parseTocLine_some {query : Option (List Char)} {cat line cat2 : List Char}
    {s : SectionInfo} (h : parseTocLine query cat line = (cat2, some s)) :
    ∃ t u, extractLink line = some (t, u) ∧ s.title = pyStrip t ∧ s.url = pyStrip u ∧
      s.category = cat ∧
      s.description =
        (if s.category ≠ [] then s.category ++ ": ".toList ++ s.title else s.title) := by
  rw [parseTocLine] at h
  split at h
  · simp at h
  · split at h
    · simp at h
    · rename_i t u hEL
      split at h
      · simp at h
      · simp only [Prod.mk.injEq, Option.some.injEq] at h
        obtain ⟨hcat, hs⟩ := h
        subst hs
        exact ⟨t, u, hEL, rfl, rfl, rfl, rfl⟩

/-- Every descriptor in the parser's output was emitted by some line
step (with the category state at that point). -/
theorem parseTocLines_mem {query : Option (List Char)} :
    ∀ {lines : List (List Char)} {cat : List Char} {s : SectionInfo},
      s ∈ parseTocLines query lines cat →
      ∃ cat0 line cat2, parseTocLine query cat0 line = (cat2, some s) := by
  intro lines
  induction lines with
  | nil =>
    intro cat s h
    simp [parseTocLines] at h
  | cons rawLine rest ih =>
    intro cat s h
    rw [parseTocLines] at h
    split at h
    · exact ih h
    · cases hP : parseTocLine query cat (pyStrip rawLine) with
      | mk cat2 o =>
        rw [hP] at h
        cases o with
        | none => exact ih h
        | some s2 =>
          rcases List.mem_cons.mp h with rfl | hmem
          · exact ⟨cat, pyStrip rawLine, cat2, hP⟩
          · exact ih hmem

/-- If no line carries the requested title, the scan returns `None`. -/
theorem findSectionContentL_none (t : List Char) (lines : List (List Char))
    (h : ∀ l ∈ lines, isTitleLine l t = false) :
    findSectionContentL t lines = none := by
  induction lines with
  | nil => rfl
  | cons a rest ih =>
    have hT : isTitleLine a t = false := h a (List.mem_cons_self a rest)
    have hrest : ∀ l ∈ rest, isTitleLine l t = false :=
      fun l hl => h l (List.mem_cons_of_mem a hl)
    rw [isTitleLine] at hT
    rw [findSectionContentL]
    by_cases h1 : pyStartsWith (pyLower (pyStrip a)) "title:".toList = true
    · rw [h1, Bool.true_and] at hT
      have h2 : ¬ pyLower (pyStrip ((pyStrip a).drop 6)) = pyLower t :=
        of_decide_eq_false hT
      rw [if_pos h1, if_neg h2]
      exact ih hrest
    · rw [if_neg h1]
      exact ih hrest

/-! ## Claims -/

/-- C1 witness: a concrete document in which `Install` occurs exactly
once as a front-matter title line; the scan agrees with the claimed
declarative description of the returned body. -/
theorem find_section_content_unique_title_witness :
    (pySplitLines exDocsC1).countP (fun l => isTitleLine l "install".toList) = 1 ∧
    findSectionContent exDocsC1 "install".toList =
      some (claimedSectionBody (pySplitLines exDocsC1) "install".toList) :=
  ⟨by decide, find_section_content_unique_title exDocsC1 "install".toList (by decide)⟩

/-- C2: on any failure (modelled: a failing HTTP fetch, the only
statement in either `try` block that can raise), `_identify_sections_async`
and `_fetch_content_async` return the structured `success: False` dict —
`error`, `error_type`, `traceback`, the echoed query and an empty
`raw_toc_content` / `extracted_content` — instead of propagating; both
embedded operations are total, so no exception ever reaches the caller. -/
theorem operations_never_raise (e : PyErr) (q toc : List Char)
    (titles : List (List Char)) (fd : Except PyErr (List Char)) :
    identifySectionsAsync (.error e) q = .err e.msg e.ty e.tb q [] ∧
    fetchContentAsync (.error e) fd titles q = .err e.msg e.ty e.tb q [] ∧
    fetchContentAsync (.ok toc) (.error e) titles q = .err e.msg e.ty e.tb q [] :=
  ⟨rfl, rfl, rfl⟩

/-- C3 counterexample: parsing the claimed TOC yields two descriptors,
but NOT both with category `"Setup"` — the heading line `## Setup`
starts with `#`, so `_parse_toc` never sets the category from it. -/
theorem parse_toc_setup_category_cex :
    ¬ ((parseToc exTocC3 none).length = 2 ∧
        ∀ s ∈ parseToc exTocC3 none, s.category = "Setup".toList) := by
  decide

/-- C3 (amended): parsing the TOC
`## Setup\n- [Installation](https://x/install)\n- [Quickstart](https://x/quick)`
yields exactly two Section Descriptors, and both have category equal to
the empty string (a `#`-prefixed heading never becomes the category). -/
theorem parse_toc_setup_two_descriptors :
    (parseToc exTocC3 none).length = 2 ∧
    ∀ s ∈ parseToc exTocC3 none, s.category = [] := by
  decide

/-- C4: on the fetch operation's success path, `sections_found` equals
the number of entries of the extracted-content mapping (placeholders
counted like successes); in particular one present and one absent title
give `sections_found = 2` with a not-found placeholder entry. -/
theorem fetch_sections_found_counts :
    (∀ (toc full_docs q : List Char) (titles : List (List Char)), ∃ ec,
        fetchContentAsync (.ok toc) (.ok full_docs) titles q = .ok q ec ec.length) ∧
    (fetchContentAsync (.ok []) (.ok exDocsC4)
        ["Real Section".toList, "Nonexistent Section".toList] "q".toList).found = 2 ∧
    dictGet? (fetchContentAsync (.ok []) (.ok exDocsC4)
        ["Real Section".toList, "Nonexistent Section".toList] "q".toList).extracted
        "Nonexistent Section".toList =
      some ("URL not found".toList, notFoundMsg "Nonexistent Section".toList) := by
  refine ⟨?_, by decide, by decide⟩
  intro toc full_docs q titles
  refine ⟨(extractSectionsFromDocs full_docs titles).map
    (fun p => (p.1,
      (dictGetD (sectionUrlMap (parseToc toc none)) p.1 "URL not found".toList, p.2))), ?_⟩
  rw [fetchContentAsync_ok, List.length_map]

/-- C5: a requested title matching no `title:` front-matter line
case-insensitively anywhere in the document is mapped by
`_extract_sections_from_docs` to the deterministic not-found placeholder,
which contains the requested title (and, the extractor being total, no
exception is raised). -/
theorem absent_title_not_found (full_docs t : List Char) (titles : List (List Char))
    (h : ∀ l ∈ pySplitLines full_docs, isTitleLine l t = false) (hmem : t ∈ titles) :
    dictGet? (extractSectionsFromDocs full_docs titles) t = some (notFoundMsg t) ∧
    t <:+: notFoundMsg t := by
  have hfind : findSectionContent full_docs t = none := findSectionContentL_none t _ h
  constructor
  · rw [extractSectionsFromDocs, extractSectionsWith_get, if_pos hmem]
    simp [extractValue, realFind, hfind]
  · exact ⟨"Section '".toList, "' not found in documentation.".toList, rfl⟩

/-- C5 witness: a document with no title lines at all. -/
theorem absent_title_not_found_witness :
    (∀ l ∈ pySplitLines "hello\nworld".toList, isTitleLine l "Install".toList = false) ∧
    (dictGet? (extractSectionsFromDocs "hello\nworld".toList ["Install".toList])
        "Install".toList = some (notFoundMsg "Install".toList) ∧
      "Install".toList <:+: notFoundMsg "Install".toList) :=
  ⟨by decide, absent_title_not_found "hello\nworld".toList "Install".toList
    ["Install".toList] (by decide) (by decide)⟩

/-- C6: titles are resolved independently.  With the per-title
`try/except` modelled by an `Except`-valued finder, a title whose
extraction fails maps to the error placeholder carrying the error
description, and every other requested title's entry is identical to
what it would be had the failing title not been requested at all. -/
theorem extract_per_title_isolation
    (find : List Char → Except (List Char) (Option (List Char)))
    (titles : List (List Char)) (t e : List Char) (hfail : find t = .error e) :
    (t ∈ titles → dictGet? (extractSectionsWith find titles) t = some (errorMsg t e)) ∧
    (∀ t2, t2 ≠ t →
      dictGet? (extractSectionsWith find titles) t2 =
        dictGet? (extractSectionsWith find
          (titles.filter (fun x => decide (x ≠ t)))) t2) := by
  constructor
  · intro hmem
    rw [extractSectionsWith_get, if_pos hmem, extractValue, hfail]
  · intro t2 hne
    rw [extractSectionsWith_get, extractSectionsWith_get]
    have hiff : (t2 ∈ titles.filter (fun x => decide (x ≠ t))) ↔ t2 ∈ titles := by
      rw [List.mem_filter]
      simp [hne]
    by_cases hm : t2 ∈ titles
    · rw [if_pos hm, if_pos (hiff.mpr hm)]
    · rw [if_neg hm, if_neg (fun hc => hm (hiff.mp hc))]

/-- C6 witness: a finder that fails on `bad` and succeeds elsewhere;
`good`'s entry is unchanged by dropping `bad` from the request. -/
theorem extract_per_title_isolation_witness :
    exFindC6 "bad".toList = .error "boom".toList ∧
    (("bad".toList ∈ ["good".toList, "bad".toList] →
        dictGet? (extractSectionsWith exFindC6 ["good".toList, "bad".toList])
          "bad".toList = some (errorMsg "bad".toList "boom".toList)) ∧
      (∀ t2, t2 ≠ "bad".toList →
        dictGet? (extractSectionsWith exFindC6 ["good".toList, "bad".toList]) t2 =
          dictGet? (extractSectionsWith exFindC6
            (["good".toList, "bad".toList].filter
              (fun x => decide (x ≠ "bad".toList)))) t2)) :=
  ⟨rfl, extract_per_title_isolation exFindC6 ["good".toList, "bad".toList]
    "bad".toList "boom".toList rfl⟩

/-- C7 counterexample: on the TOC `- [ ](u)` the parser emits a
descriptor whose `title` is the empty string (the bracket group is all
whitespace, and stripping it leaves nothing). -/
theorem parse_toc_nonempty_fields_cex :
    ¬ (∀ s ∈ parseToc "- [ ](u)".toList none, s.title ≠ [] ∧ s.url ≠ []) := by
  decide

/-- C7 (amended): every Section Descriptor's `title` and `url` are the
whitespace-trimmed bracket and parenthesis groups of a markdown link,
and the untrimmed groups are always non-empty; the trimmed `title`/`url`
may still be empty when the corresponding group is entirely whitespace. -/
theorem parse_toc_fields_are_trimmed_groups (toc : List Char)
    (query : Option (List Char)) (s : SectionInfo) (h : s ∈ parseToc toc query) :
    ∃ t u, t ≠ [] ∧ u ≠ [] ∧ s.title = pyStrip t ∧ s.url = pyStrip u := by
  obtain ⟨cat0, line, cat2, hline⟩ := parseTocLines_mem h
  obtain ⟨t, u, hEL, ht, hu, _, _⟩ := parseTocLine_some hline
  obtain ⟨htne, hune⟩ := extractLink_groups hEL
  exact ⟨t, u, htne, hune, ht, hu⟩

/-- C7 witness: a concrete descriptor together with its link groups. -/
theorem parse_toc_fields_are_trimmed_groups_witness :
    (⟨"Installation".toList, [], "https://x/install".toList, "Installation".toList⟩ :
        SectionInfo) ∈ parseToc "- [Installation](https://x/install)".toList none ∧
    ∃ t u, t ≠ [] ∧ u ≠ [] ∧
      (⟨"Installation".toList, [], "https://x/install".toList,
        "Installation".toList⟩ : SectionInfo).title = pyStrip t ∧
      (⟨"Installation".toList, [], "https://x/install".toList,
        "Installation".toList⟩ : SectionInfo).url = pyStrip u :=
  ⟨by decide, parse_toc_fields_are_trimmed_groups
    "- [Installation](https://x/install)".toList none _ (by decide)⟩

/-- C8: every descriptor's `description` is `category + ": " + title`
when its category is non-empty, and is `title` when the category is
empty. -/
theorem parse_toc_description_format (toc : List Char) (query : Option (List Char))
    (s : SectionInfo) (h : s ∈ parseToc toc query) :
    s.description =
      (if s.category = [] then s.title
        else s.category ++ ": ".toList ++ s.title) := by
  obtain ⟨cat0, line, cat2, hline⟩ := parseTocLines_mem h
  obtain ⟨t, u, _, _, _, _, hdesc⟩ := parseTocLine_some hline
  rw [hdesc]
  by_cases hc : s.category = []
  · simp [hc]
  · simp [hc]

/-- C8 witness: one descriptor with a category and one without. -/
theorem parse_toc_description_format_witness :
    ((⟨"A".toList, "Setup".toList, "u".toList, "Setup: A".toList⟩ : SectionInfo) ∈
        parseToc "Setup\n- [A](u)".toList none ∧
      (⟨"A".toList, "Setup".toList, "u".toList, "Setup: A".toList⟩ :
          SectionInfo).description =
        (if (⟨"A".toList, "Setup".toList, "u".toList, "Setup: A".toList⟩ :
            SectionInfo).category = []
          then (⟨"A".toList, "Setup".toList, "u".toList, "Setup: A".toList⟩ :
            SectionInfo).title
          else (⟨"A".toList, "Setup".toList, "u".toList, "Setup: A".toList⟩ :
              SectionInfo).category ++ ": ".toList ++
            (⟨"A".toList, "Setup".toList, "u".toList, "Setup: A".toList⟩ :
              SectionInfo).title)) :=
  ⟨by decide, parse_toc_description_format "Setup\n- [A](u)".toList none _ (by decide)⟩

/-- C9: a found front-matter block whose collected body is empty — the
closing `---` is immediately followed by a section boundary, or by the
end of the document, or no closing `---` exists — makes
`_find_section_content` return the empty string, and
`_extract_sections_from_docs` then reports the not-found placeholder
rather than empty content. -/
theorem empty_body_reports_not_found :
    (∀ (full_docs t : List Char) (titles : List (List Char)),
        findSectionContent full_docs t = some [] → t ∈ titles →
        dictGet? (extractSectionsFromDocs full_docs titles) t =
          some (notFoundMsg t)) ∧
    findSectionContent exDocsC9a "A".toList = some [] ∧
    findSectionContent exDocsC9b "A".toList = some [] ∧
    findSectionContent exDocsC9c "A".toList = some [] := by
  refine ⟨?_, by decide, by decide, by decide⟩
  intro full_docs t titles hfind hmem
  rw [extractSectionsFromDocs, extractSectionsWith_get, if_pos hmem]
  simp [extractValue, realFind, hfind]

/-- C9 witness: the empty-body document with the title requested. -/
theorem empty_body_reports_not_found_witness :
    findSectionContent exDocsC9a "A".toList = some [] ∧
    dictGet? (extractSectionsFromDocs exDocsC9a ["A".toList]) "A".toList =
      some (notFoundMsg "A".toList) :=
  ⟨by decide, empty_body_reports_not_found.1 exDocsC9a "A".toList ["A".toList]
    (by decide) (by decide)⟩

/-- C10: URL attachment is case-sensitive while section extraction is
case-insensitive: when a requested title's section body is found (and
non-empty) but the exact title string has no entry in the TOC's URL
map, the fetch result pairs the extracted body with the literal
`URL not found`. -/
theorem fetch_url_lookup_case_sensitive (toc full_docs t q c : List Char)
    (titles : List (List Char)) (hmem : t ∈ titles)
    (hfind : findSectionContent full_docs t = some c) (hc : c ≠ [])
    (hurl : dictGet? (sectionUrlMap (parseToc toc none)) t = none) :
    dictGet? (fetchContentAsync (.ok toc) (.ok full_docs) titles q).extracted t =
      some ("URL not found".toList, c) := by
  rw [fetchContentAsync_ok, FetchResult.extracted,
    dictGet?_map_pairs
      (fun k v => (dictGetD (sectionUrlMap (parseToc toc none)) k "URL not found".toList, v))
      (extractSectionsFromDocs full_docs titles) t,
    extractSectionsFromDocs, extractSectionsWith_get, if_pos hmem]
  simp [extractValue, realFind, hfind, hc, dictGetD, hurl]

/-- C10 witness: the TOC records `Abc`, the docs record `ABC`, and the
request is `abc`: extraction succeeds case-insensitively but the URL
lookup misses. -/
theorem fetch_url_lookup_case_sensitive_witness :
    ("abc".toList ∈ ["abc".toList] ∧
      findSectionContent exDocsC10 "abc".toList = some "the body".toList ∧
      "the body".toList ≠ [] ∧
      dictGet? (sectionUrlMap (parseToc exTocC10 none)) "abc".toList = none) ∧
    dictGet? (fetchContentAsync (.ok exTocC10) (.ok exDocsC10)
        ["abc".toList] "q".toList).extracted "abc".toList =
      some ("URL not found".toList, "the body".toList) :=
  ⟨⟨by decide, by decide, by decide, by decide⟩,
    fetch_url_lookup_case_sensitive exTocC10 exDocsC10 "abc".toList "q".toList
      "the body".toList ["abc".toList] (by decide) (by decide) (by decide) (by decide)⟩
